import Mathlib

/-!
Verification model of the V8 promise scheduling core
(`src/objects/promise.h` plus the behaviour described in the design
specification).  The header under `src/` declares the record layouts
(`PromiseReactionJobTask`, `PromiseResolveThenableJobTask`,
`PromiseCapability`, `PromiseReaction`); the state machine and microtask
scheduling are modelled from the specification, since their sources are
not part of the excerpt.
-/

namespace V8Promise

/-! ## Record layouts

Shallow embedding of `DEFINE_FIELD_OFFSET_CONSTANTS(StartOffset, LIST)`:
each `V(kName, size)` entry receives the running offset, which then
advances by `size`; the trailing `V(kSize, 0)` entry therefore receives
the total end offset of the object. -/

/-- Offsets assigned to a list of field sizes, starting at `start`:
the `n`-th entry of the result is `start` plus the sum of the first `n`
sizes, exactly as the C++ macro accumulates them. -/
def fieldOffsetConstants : Nat → List Nat → List Nat
  | _, [] => []
  | start, s :: rest => start :: fieldOffsetConstants (start + s) rest

/-- End offset of an object whose fields of the given sizes start at
`start`; this is the value the macro assigns to the trailing `V(kSize, 0)`. -/
def layoutEndOffset (start : Nat) (sizes : List Nat) : Nat := start + sizes.sum

/-- Modelled from the spec: `src/objects/struct.h` is not part of the
excerpt, so the header size of `Struct` is kept abstract as a parameter
`structHeaderSize` throughout; the layout claims hold for every value. -/
def structHeaderParam (structHeaderSize : Nat) : Nat := structHeaderSize

/-- Modelled from the spec: `src/objects/microtask.h` is not part of the
excerpt.  Per the spec, the Reaction Record (a `Struct`) and the Reaction
Job (a `Microtask`) share one record shape, which requires `Microtask` to
add no fields beyond the `Struct` header; hence `Microtask::kHeaderSize`
is modelled as equal to `Struct::kHeaderSize`. -/
def microtaskHeaderSize (structHeaderSize : Nat) : Nat := structHeaderSize

namespace PromiseReactionJobTask

/-- Field sizes of `PROMISE_REACTION_JOB_FIELDS`: `argument`, `context`,
`handler`, `promise_or_capability`, each one tagged slot
(`src/objects/promise.h:37-43`). -/
def fieldSizes (taggedSize : Nat) : List Nat :=
  [taggedSize, taggedSize, taggedSize, taggedSize]

/-- Number of tagged slots in the layout. -/
def slotCount (taggedSize : Nat) : Nat := (fieldSizes taggedSize).length

/-- Offsets of the four fields, accumulated from `Microtask::kHeaderSize`. -/
def offsets (structHeaderSize taggedSize : Nat) : List Nat :=
  fieldOffsetConstants (microtaskHeaderSize structHeaderSize) (fieldSizes taggedSize)

def kArgumentOffset (structHeaderSize taggedSize : Nat) : Nat :=
  (offsets structHeaderSize taggedSize).getD 0 0

def kContextOffset (structHeaderSize taggedSize : Nat) : Nat :=
  (offsets structHeaderSize taggedSize).getD 1 0

def kHandlerOffset (structHeaderSize taggedSize : Nat) : Nat :=
  (offsets structHeaderSize taggedSize).getD 2 0

def kPromiseOrCapabilityOffset (structHeaderSize taggedSize : Nat) : Nat :=
  (offsets structHeaderSize taggedSize).getD 3 0

/-- Total size: the value assigned to the trailing `V(kSize, 0)` entry. -/
def kSize (structHeaderSize taggedSize : Nat) : Nat :=
  layoutEndOffset (microtaskHeaderSize structHeaderSize) (fieldSizes taggedSize)

end PromiseReactionJobTask

namespace PromiseReaction

/-- Field sizes of `PROMISE_REACTION_FIELDS`: `next`, `reject_handler`,
`fulfill_handler`, `promise_or_capability`, each one tagged slot
(`src/objects/promise.h:167-173`). -/
def fieldSizes (taggedSize : Nat) : List Nat :=
  [taggedSize, taggedSize, taggedSize, taggedSize]

/-- Number of tagged slots in the layout. -/
def slotCount (taggedSize : Nat) : Nat := (fieldSizes taggedSize).length

/-- Offsets of the four fields, accumulated from `Struct::kHeaderSize`. -/
def offsets (structHeaderSize taggedSize : Nat) : List Nat :=
  fieldOffsetConstants structHeaderSize (fieldSizes taggedSize)

def kNextOffset (structHeaderSize taggedSize : Nat) : Nat :=
  (offsets structHeaderSize taggedSize).getD 0 0

def kRejectHandlerOffset (structHeaderSize taggedSize : Nat) : Nat :=
  (offsets structHeaderSize taggedSize).getD 1 0

def kFulfillHandlerOffset (structHeaderSize taggedSize : Nat) : Nat :=
  (offsets structHeaderSize taggedSize).getD 2 0

def kPromiseOrCapabilityOffset (structHeaderSize taggedSize : Nat) : Nat :=
  (offsets structHeaderSize taggedSize).getD 3 0

/-- Total size: the value assigned to the trailing `V(kSize, 0)` entry. -/
def kSize (structHeaderSize taggedSize : Nat) : Nat :=
  layoutEndOffset structHeaderSize (fieldSizes taggedSize)

end PromiseReaction

/-! ## Values, handlers, targets

Modelled from the spec: the behavioural core (state machine §4.1,
registration §4.2, morph §4.3, queue §4.4, thenable job §4.5) is not in
the excerpt, only its record layouts are; the operations below follow the
specification's algorithms. -/

/-- User-level values.  A value "exposing a callable `then`" (a thenable)
is represented intrinsically, carrying the behaviour its `then` method
exhibits when invoked with the freshly minted resolving and rejecting
functions of §4.5: it calls the resolving function with a value, calls
the rejecting function with a reason, or raises a user-level error
without calling either. -/
inductive Val where
  | num : Int → Val
  | undef : Val
  | thenableCallsResolve : Val → Val
  | thenableCallsReject : Val → Val
  | thenableThrows : Val → Val
  deriving DecidableEq, Repr

/-- Duck-typed capability check of §4.1: does the value expose a callable
`then`? -/
def isThenable : Val → Bool
  | .thenableCallsResolve _ => true
  | .thenableCallsReject _ => true
  | .thenableThrows _ => true
  | _ => false

/-- Handlers: the two sentinels of §4.2 ("pass through value" for the
fulfill side, "pass through and rethrow reason" for the reject side) and
user callables, which either return a value or raise a user-level error;
`logAndPass` additionally records an observable effect, used to witness
execution order. -/
inductive Handler where
  | passThrough : Handler
  | rethrow : Handler
  | const : Val → Handler
  | throwsErr : Val → Handler
  | logAndPass : Nat → Handler
  deriving DecidableEq, Repr

/-- Invoking `handler(argument)` (the collaborator `call` primitive):
returns the observable effects it produced and either a return value or
a raised user-level error. -/
def runHandler : Handler → Val → List Nat × Except Val Val
  | .passThrough, a => ([], .ok a)
  | .rethrow, a => ([], .error a)
  | .const v, _ => ([], .ok v)
  | .throwsErr e, _ => ([], .error e)
  | .logAndPass i, a => ([i], .ok a)

/-- Contents of the `promise_or_capability` slot: a `JSPromise` (fast
native case), a `PromiseCapability` (subclass case; its `resolve_fn` and
`reject_fn` settle the promise it wraps), or `undefined` (the "none"
sentinel of the await case). -/
inductive Target where
  | prom : Nat → Target
  | cap : Nat → Target
  | undef : Target
  deriving DecidableEq, Repr

/-- A `PromiseReaction` record as registered on a pending promise: both
handlers and the target (`src/objects/promise.h:155-185`); the `next`
link is represented by the position in the promise's reaction list. -/
structure Reaction where
  rejectHandler : Handler
  fulfillHandler : Handler
  promiseOrCapability : Target
  deriving DecidableEq, Repr

/-- Promise states. -/
inductive PState where
  | pending : PState
  | fulfilled : PState
  | rejected : PState
  deriving DecidableEq, Repr

/-- A Promise Record (§3): state, result (valid once settled), and the
reaction list, stored in reverse chronological order (head = most
recently registered, as built by prepending). -/
structure PromiseRec where
  state : PState
  result : Val
  reactions : List Reaction
  deriving DecidableEq, Repr

/-- Microtask jobs: the two Reaction Job variants
(`PromiseFulfillReactionJobTask` / `PromiseRejectReactionJobTask`, four
slots: argument, context, handler, promise_or_capability) and the
Thenable-Resolution Job (`PromiseResolveThenableJobTask`, four slots:
context, promise_to_resolve, then, thenable). -/
inductive Job where
  | fulfillReactionJob : Val → Nat → Handler → Target → Job
  | rejectReactionJob : Val → Nat → Handler → Target → Job
  | resolveThenableJob : Nat → Nat → Val → Val → Job
  deriving DecidableEq, Repr

/-- Contents of the fourth slot of a Reaction Job: the
`promise_or_capability` slot of the two reaction variants.  The
Thenable-Resolution Job has no such slot; its fourth slot holds the
thenable, and the projection returns the sentinel for it. -/
def Job.promiseOrCapability : Job → Target
  | .fulfillReactionJob _ _ _ t => t
  | .rejectReactionJob _ _ _ t => t
  | .resolveThenableJob _ _ _ _ => Target.undef

/-- Machine state: the promise store (ids are list positions), the FIFO
microtask queue (head = front), the observable effect log, and the
ambient context recorded into morphed jobs. -/
structure Machine where
  promises : List PromiseRec
  queue : List Job
  log : List Nat
  ambientContext : Nat
  deriving DecidableEq, Repr

/-! ## Machine operations (modelled from the spec §4, §6) -/

/-- Look a promise up in the store. -/
def getPromise (m : Machine) (p : Nat) : Option PromiseRec := m.promises[p]?

/-- Replace a promise in the store. -/
def setPromise (m : Machine) (p : Nat) (P : PromiseRec) : Machine :=
  { m with promises := m.promises.set p P }

/-- Append a job to the tail of the microtask queue (§4.4 `enqueue`). -/
def enqueue (m : Machine) (j : Job) : Machine :=
  { m with queue := m.queue ++ [j] }

/-- The in-place reversal of the reaction list (§4.3): standard pointer
reversal, turning the reverse-chronological storage order into
registration order. -/
def reverseOnto : List Reaction → List Reaction → List Reaction
  | [], acc => acc
  | r :: rest, acc => reverseOnto rest (r :: acc)

/-- The morph step of §4.3: pick
`handler = state == fulfilled ? fulfill_handler : reject_handler`,
set the type tag to the matching job variant, and reinterpret the four
slots as `(argument = result, context = ambient context, handler,
target = promise_or_capability)`. -/
def morph (st : PState) (result : Val) (context : Nat) (r : Reaction) : Job :=
  if st = PState.fulfilled then
    Job.fulfillReactionJob result context r.fulfillHandler r.promiseOrCapability
  else
    Job.rejectReactionJob result context r.rejectHandler r.promiseOrCapability

/-- Settlement reaction processing (§4.3): reverse the reaction list into
registration order, morph each node and append the resulting job to the
queue tail, in that order. -/
def triggerReactions (m : Machine) (st : PState) (result : Val)
    (reactions : List Reaction) : Machine :=
  (reverseOnto reactions []).foldl
    (fun acc r => enqueue acc (morph st result acc.ambientContext r)) m

/-- Transition a pending promise to a terminal state with the given
result, discard its reaction list and process it (§4.1, §4.3). -/
def settle (m : Machine) (p : Nat) (st : PState) (v : Val) : Machine :=
  match getPromise m p with
  | none => m
  | some P =>
      triggerReactions
        (setPromise m p { state := st, result := v, reactions := [] })
        st v P.reactions

/-- `resolve(P, value)` (§4.1): a no-op unless P is pending; if `value`
exposes a callable `then`, enqueue a Thenable-Resolution Job with
`(context, P, value.then, value)` and return with P still pending;
otherwise fulfill P with `value` and process its reactions. -/
def resolve (m : Machine) (p : Nat) (v : Val) : Machine :=
  match getPromise m p with
  | none => m
  | some P =>
      if P.state ≠ PState.pending then m
      else if isThenable v then
        enqueue m (Job.resolveThenableJob m.ambientContext p v v)
      else
        settle m p PState.fulfilled v

/-- `reject(P, reason)` (§4.1): a no-op unless P is pending; otherwise
transition to rejected with the reason and process the reactions. -/
def reject (m : Machine) (p : Nat) (r : Val) : Machine :=
  match getPromise m p with
  | none => m
  | some P =>
      if P.state ≠ PState.pending then m
      else settle m p PState.rejected r

/-- `create_promise()` (§4.1): a fresh pending promise with no result and
an empty reaction list; returns its id. -/
def createPromise (m : Machine) : Machine × Nat :=
  ({ m with promises :=
      m.promises ++ [{ state := .pending, result := .undef, reactions := [] }] },
   m.promises.length)

/-- `then(P, onFulfill?, onReject?)` (§4.2): create the target promise,
build a Reaction Record with the sentinels filling omitted handlers; if P
is pending, prepend the record to its reaction list; if P is already
settled, synthesize the job for the correct variant and enqueue it —
never executing it synchronously.  Returns the target promise's id. -/
def thenOp (m : Machine) (p : Nat) (onFulfill onReject : Option Handler) :
    Machine × Nat :=
  let created := createPromise m
  let m1 := created.1
  let q := created.2
  let record : Reaction :=
    { fulfillHandler := onFulfill.getD Handler.passThrough,
      rejectHandler := onReject.getD Handler.rethrow,
      promiseOrCapability := Target.prom q }
  match getPromise m1 p with
  | none => (m1, q)
  | some P =>
      match P.state with
      | .pending =>
          (setPromise m1 p { P with reactions := record :: P.reactions }, q)
      | st => (enqueue m1 (morph st P.result m1.ambientContext record), q)

/-- Deliver a job's outcome to its target (§4.4, §4.6): a returned value
resolves the target, a raised error rejects it; when the target is the
"none" sentinel the outcome is discarded.  A capability target settles
the promise it wraps through its `resolve_fn`/`reject_fn`. -/
def settleOutcome (m : Machine) (t : Target) : Except Val Val → Machine
  | .ok v =>
      match t with
      | .prom q => resolve m q v
      | .cap q => resolve m q v
      | .undef => m
  | .error e =>
      match t with
      | .prom q => reject m q e
      | .cap q => reject m q e
      | .undef => m

/-- Execute one dequeued job (§4.4, §4.5).  For a Reaction Job: invoke
`handler(argument)` under the job's context; the outcome (return or
user-level error) is delivered to the target, never escaping the drain
loop.  For a Thenable-Resolution Job: invoke `thenable.then` with the
freshly minted resolving/rejecting functions; if `then` itself raises
with neither function called, reject the promise to resolve. -/
def runJob (m : Machine) : Job → Machine
  | .fulfillReactionJob a _ctx h t =>
      let r := runHandler h a
      settleOutcome { m with log := m.log ++ r.1 } t r.2
  | .rejectReactionJob a _ctx h t =>
      let r := runHandler h a
      settleOutcome { m with log := m.log ++ r.1 } t r.2
  | .resolveThenableJob _ctx p thenF _thenable =>
      match thenF with
      | .thenableCallsResolve v => resolve m p v
      | .thenableCallsReject e => reject m p e
      | .thenableThrows e => reject m p e
      | _ => m

/-- `drain_microtasks()` (§4.4): repeatedly pop the front job and execute
it to completion until the queue is empty; jobs enqueued during the drain
are processed in the same pass.  The fuel bounds the number of jobs
executed; with enough fuel the queue empties. -/
def drain : Nat → Machine → Machine
  | 0, m => m
  | fuel + 1, m =>
      match m.queue with
      | [] => m
      | j :: rest => drain fuel (runJob { m with queue := rest } j)

/-! ## Heap-level model of the reaction list

The comment at `src/objects/promise.h:151-154` states that the
`PromiseReaction` objects form a singly-linked list through the `next`
field, terminated by Smi 0, linked in reverse order on the `JSPromise`
and turned back into the proper order when scheduled.  This section
models that representation at the level of tagged heap values, so that
termination of the chain and its preservation by prepending and by the
in-place pointer reversal can be stated. -/

/-- A tagged value as stored in the `next` slot: a small integer (Smi),
a reference to a heap object, undefined, or null. -/
inductive Obj where
  | smi : Int → Obj
  | ref : Nat → Obj
  | undef : Obj
  | null : Obj
  deriving DecidableEq, Repr

/-- A `PromiseReaction` node as laid out on the heap: the `next` slot
followed by the `reject_handler`, `fulfill_handler` and
`promise_or_capability` slots (`src/objects/promise.h:167-173`). -/
structure RNode where
  next : Obj
  rejectHandler : Handler
  fulfillHandler : Handler
  promiseOrCapability : Target
  deriving DecidableEq, Repr

/-- The heap region holding reaction nodes, addressed by position. -/
abbrev Heap := List RNode

/-- `Chain h o addrs`: starting from the tagged value `o`, following the
`next` slots visits exactly the nodes at `addrs` and ends at the Smi 0
terminator.  This is the well-formedness of the reaction list. -/
inductive Chain (h : Heap) : Obj → List Nat → Prop where
  | nil : Chain h (Obj.smi 0) []
  | cons {a : Nat} {c : RNode} {rest : List Nat} :
      h[a]? = some c → Chain h c.next rest → Chain h (Obj.ref a) (a :: rest)

/-- In-place pointer reversal of the chain starting at `cur`, with `acc`
the already-reversed prefix (initially the Smi 0 terminator): the loop of
§4.3.  The fuel bounds the number of pointer rewrites. -/
def revChainAux : Nat → Heap → Obj → Obj → Heap × Obj
  | 0, h, _, acc => (h, acc)
  | fuel + 1, h, cur, acc =>
      match cur with
      | Obj.ref a =>
          match h[a]? with
          | some c =>
              revChainAux fuel (h.set a { c with next := acc }) c.next (Obj.ref a)
          | none => (h, acc)
      | _ => (h, acc)

/-- Reverse the reaction chain headed by `head` in place, starting the
accumulator at the Smi 0 terminator. -/
def revChain (h : Heap) (head : Obj) (fuel : Nat) : Heap × Obj :=
  revChainAux fuel h head (Obj.smi 0)

/-- A concrete two-node reaction chain used to exercise the heap model:
the node at address 1 links to the node at address 0, which holds the
Smi 0 terminator. -/
def twoNodeHeap : Heap :=
  [RNode.mk (Obj.smi 0) Handler.rethrow Handler.passThrough Target.undef,
   RNode.mk (Obj.ref 0) Handler.rethrow Handler.passThrough Target.undef]

/-- Registration prepend at the heap level (§4.2): allocate the new node
at the end of the heap region with its `next` slot pointing at the old
head; the new head is a reference to it. -/
def prependNode (h : Heap) (head : Obj) (rh fh : Handler) (t : Target) :
    Heap × Obj :=
  (h ++ [{ next := head, rejectHandler := rh, fulfillHandler := fh,
           promiseOrCapability := t }], Obj.ref h.length)

/-- A well-formed chain survives allocating new nodes at the end of the
heap region: the addresses it visits are unchanged. -/
theorem Chain.append_heap {h : Heap} {o : Obj} {l : List Nat}
    (hc : Chain h o l) (h2 : Heap) : Chain (h ++ h2) o l := by
  induction hc with
  | nil => exact Chain.nil
  | cons hget _ ih =>
      have hlt := (List.getElem?_eq_some.mp hget).1
      exact Chain.cons (by rw [List.getElem?_append_left hlt]; exact hget) ih

/-- A well-formed chain survives overwriting a node outside it. -/
theorem Chain.set_heap {h : Heap} {o : Obj} {l : List Nat}
    (hc : Chain h o l) {a : Nat} (ha : a ∉ l) (c' : RNode) :
    Chain (h.set a c') o l := by
  induction hc with
  | nil => exact Chain.nil
  | @cons b c rest hget _ ih =>
      have hne : a ≠ b := fun he => ha (he ▸ List.mem_cons_self b rest)
      exact Chain.cons (by rw [List.getElem?_set_ne hne]; exact hget)
        (ih fun hm => ha (List.mem_cons_of_mem b hm))

/-- The head of a well-formed chain is either the Smi 0 terminator or a
reference to a node. -/
theorem Chain.head_shape {h : Heap} {o : Obj} {l : List Nat}
    (hc : Chain h o l) : o = Obj.smi 0 ∨ ∃ b, o = Obj.ref b := by
  cases hc with
  | nil => exact Or.inl rfl
  | cons _ _ => exact Or.inr ⟨_, rfl⟩

/-- Inversion: a chain visiting no node starts at the terminator. -/
theorem Chain.nil_inv {h : Heap} {o : Obj} (hc : Chain h o []) :
    o = Obj.smi 0 := by
  cases hc; rfl

/-- Inversion: a chain visiting `a` first starts at a reference to `a`,
whose node's `next` slot heads the rest of the chain. -/
theorem Chain.cons_inv {h : Heap} {o : Obj} {a : Nat} {rest : List Nat}
    (hc : Chain h o (a :: rest)) :
    o = Obj.ref a ∧ ∃ c, h[a]? = some c ∧ Chain h c.next rest := by
  cases hc with
  | cons hget htail => exact ⟨rfl, _, hget, htail⟩

/-- Every `next` slot reachable in a well-formed chain holds either a
reference to another `PromiseReaction` node or the Smi 0 terminator —
never undefined, null or any other value. -/
theorem Chain.next_shape {h : Heap} {o : Obj} {l : List Nat}
    (hc : Chain h o l) :
    ∀ a ∈ l, ∃ c, h[a]? = some c ∧
      (c.next = Obj.smi 0 ∨ ∃ b, c.next = Obj.ref b) := by
  induction hc with
  | nil => intro a ha; cases ha
  | @cons b c rest hget htail ih =>
      intro a ha
      rcases List.mem_cons.mp ha with rfl | hm
      · exact ⟨c, hget, htail.head_shape⟩
      · exact ih a hm

/-- Registration prepend preserves chain well-formedness: the new node is
linked in front of the old head and the chain now visits it first. -/
theorem prependNode_chain {h : Heap} {head : Obj} {l : List Nat}
    (hc : Chain h head l) (rh fh : Handler) (t : Target) :
    Chain (prependNode h head rh fh t).1 (prependNode h head rh fh t).2
      (h.length :: l) := by
  refine Chain.cons (List.getElem?_concat_length h _) ?_
  exact hc.append_heap _

/-- Fuel-independent behaviour of the reversal loop at the terminator. -/
theorem revChainAux_smi_zero (fuel : Nat) (h : Heap) (acc : Obj) :
    revChainAux fuel h (Obj.smi 0) acc = (h, acc) := by
  cases fuel <;> rfl

/-- The in-place pointer reversal, run on a well-formed chain disjoint
from the already-reversed accumulator chain, yields a well-formed chain
visiting the input nodes in reverse order followed by the accumulator's
nodes; no node is lost and the terminator is preserved. -/
theorem revChainAux_chain {l : List Nat} :
    ∀ {h : Heap} {cur acc : Obj} {l' : List Nat} {fuel : Nat},
      Chain h cur l → Chain h acc l' → (l ++ l').Nodup → l.length ≤ fuel →
        Chain (revChainAux fuel h cur acc).1 (revChainAux fuel h cur acc).2
          (l.reverse ++ l') := by
  induction l with
  | nil =>
      intro h cur acc l' fuel hc hacc _ _
      rw [hc.nil_inv, revChainAux_smi_zero]
      simpa using hacc
  | cons a rest ih =>
      intro h cur acc l' fuel hc hacc hnd hf
      obtain ⟨rfl, c, hget, htail⟩ := hc.cons_inv
      match fuel, hf with
      | f + 1, hf =>
        have hlt := (List.getElem?_eq_some.mp hget).1
        have hnd' : (a :: (rest ++ l')).Nodup := by simpa using hnd
        have hna : a ∉ rest ++ l' := (List.nodup_cons.mp hnd').1
        have hnar : a ∉ rest := fun hm => hna (List.mem_append_left _ hm)
        have hnal : a ∉ l' := fun hm => hna (List.mem_append_right _ hm)
        have step : revChainAux (f + 1) h (Obj.ref a) acc =
            revChainAux f (h.set a { c with next := acc }) c.next
              (Obj.ref a) := by
          simp [revChainAux, hget]
        rw [step]
        have htail' : Chain (h.set a { c with next := acc }) c.next rest :=
          htail.set_heap hnar _
        have hacc' : Chain (h.set a { c with next := acc }) (Obj.ref a)
            (a :: l') :=
          Chain.cons (List.getElem?_set_eq_of_lt _ hlt) (hacc.set_heap hnal _)
        have hnd'' : (rest ++ a :: l').Nodup :=
          (List.perm_middle.symm).nodup ((List.nodup_cons.mp hnd').2 |>.cons hna)
        have := ih htail' hacc' hnd'' (Nat.le_of_succ_le_succ hf)
        simpa [List.append_assoc] using this

/-! ## Basic lemmas about the machine operations -/

/-- The pointer reversal on lists agrees with `List.reverse`. -/
theorem reverseOnto_eq (l acc : List Reaction) :
    reverseOnto l acc = l.reverse ++ acc := by
  induction l generalizing acc with
  | nil => simp [reverseOnto]
  | cons r rest ih => simp [reverseOnto, ih]

/-- A successful lookup bounds the promise id. -/
theorem getPromise_lt {m : Machine} {p : Nat} {P : PromiseRec}
    (h : getPromise m p = some P) : p < m.promises.length :=
  (List.getElem?_eq_some.mp h).1

/-- Creating a promise does not disturb existing promises. -/
theorem getPromise_createPromise {m : Machine} {p : Nat} {P : PromiseRec}
    (h : getPromise m p = some P) :
    getPromise (createPromise m).1 p = some P := by
  show (m.promises ++ [_])[p]? = some P
  rw [List.getElem?_append_left (getPromise_lt h)]
  exact h

/-- The fresh promise returned by `create_promise` is pending with no
result and no reactions. -/
theorem getPromise_createPromise_new (m : Machine) :
    getPromise (createPromise m).1 (createPromise m).2 =
      some { state := .pending, result := .undef, reactions := [] } := by
  exact List.getElem?_concat_length _ _

/-- Replacing a promise makes it visible at its id. -/
theorem getPromise_setPromise_self {m : Machine} {p : Nat} {P Q : PromiseRec}
    (h : getPromise m p = some P) :
    getPromise (setPromise m p Q) p = some Q :=
  List.getElem?_set_eq_of_lt Q (getPromise_lt h)

/-- Replacing a promise does not disturb other ids. -/
theorem getPromise_setPromise_ne {m : Machine} {p q : Nat} (Q : PromiseRec)
    (hne : p ≠ q) : getPromise (setPromise m p Q) q = getPromise m q :=
  List.getElem?_set_ne hne

/-- Settlement reaction processing only appends to the queue: the morphed
jobs, in registration order, with the promise's result as argument and
the ambient context. -/
theorem foldl_enqueue_morph (l : List Reaction) (m : Machine) (st : PState)
    (res : Val) :
    l.foldl (fun acc r => enqueue acc (morph st res acc.ambientContext r)) m =
      { m with queue := m.queue ++ l.map (morph st res m.ambientContext) } := by
  induction l generalizing m with
  | nil => simp
  | cons r rest ih =>
      rw [List.foldl_cons, ih]
      simp [enqueue]

/-- Closed form of `triggerReactions`: reverse the stored list into
registration order, morph each node, append to the queue tail. -/
theorem triggerReactions_eq (m : Machine) (st : PState) (res : Val)
    (rs : List Reaction) :
    triggerReactions m st res rs =
      { m with queue :=
          m.queue ++ (reverseOnto rs []).map (morph st res m.ambientContext) } :=
  foldl_enqueue_morph _ m st res

/-- Settlement never touches the observable effect log. -/
theorem settle_log (m : Machine) (p : Nat) (st : PState) (v : Val) :
    (settle m p st v).log = m.log := by
  unfold settle
  cases getPromise m p with
  | none => rfl
  | some P => dsimp only; rw [triggerReactions_eq]; rfl

/-- `resolve` never touches the observable effect log. -/
theorem resolve_log (m : Machine) (p : Nat) (v : Val) :
    (resolve m p v).log = m.log := by
  unfold resolve
  cases getPromise m p with
  | none => rfl
  | some P =>
      by_cases hst : P.state = PState.pending
      · by_cases hv : isThenable v
        · simp [hst, hv, enqueue]
        · simp [hst, hv, settle_log]
      · simp [hst]

/-- `reject` never touches the observable effect log. -/
theorem reject_log (m : Machine) (p : Nat) (r : Val) :
    (reject m p r).log = m.log := by
  unfold reject
  cases getPromise m p with
  | none => rfl
  | some P =>
      by_cases hst : P.state = PState.pending
      · simp [hst, settle_log]
      · simp [hst]

/-- Delivering a job outcome never touches the observable effect log. -/
theorem settleOutcome_log (m : Machine) (t : Target) (e : Except Val Val) :
    (settleOutcome m t e).log = m.log := by
  cases e <;> cases t <;>
    simp [settleOutcome, resolve_log, reject_log]

/-- Closed form of `then` on a pending promise: the target promise is
created at the end of the store and the Reaction Record is prepended to
the pending reaction list; the queue and log are untouched. -/
theorem thenOp_pending {m : Machine} {p : Nat} {P : PromiseRec}
    (onFulfill onReject : Option Handler)
    (hget : getPromise m p = some P) (hst : P.state = PState.pending) :
    thenOp m p onFulfill onReject =
      (setPromise (createPromise m).1 p
        { P with reactions :=
            { rejectHandler := onReject.getD Handler.rethrow,
              fulfillHandler := onFulfill.getD Handler.passThrough,
              promiseOrCapability := Target.prom m.promises.length } ::
          P.reactions },
       m.promises.length) := by
  simp only [thenOp]
  rw [getPromise_createPromise hget]
  dsimp only
  rw [hst]
  rfl

/-- Closed form of `then` on a settled promise: the record is morphed
into the job for the promise's terminal state and appended to the queue;
no handler is invoked. -/
theorem thenOp_settled {m : Machine} {p : Nat} {P : PromiseRec}
    (onFulfill onReject : Option Handler)
    (hget : getPromise m p = some P) (hst : P.state ≠ PState.pending) :
    thenOp m p onFulfill onReject =
      (enqueue (createPromise m).1
        (morph P.state P.result m.ambientContext
          { rejectHandler := onReject.getD Handler.rethrow,
            fulfillHandler := onFulfill.getD Handler.passThrough,
            promiseOrCapability := Target.prom m.promises.length }),
       m.promises.length) := by
  simp only [thenOp]
  rw [getPromise_createPromise hget]
  dsimp only
  cases h : P.state with
  | pending => exact absurd h hst
  | fulfilled => rfl
  | rejected => rfl

/-- Closed form of `resolve` with a non-thenable value on a pending
promise: fulfill and process the reactions. -/
theorem resolve_pending_value {m : Machine} {p : Nat} {P : PromiseRec} {v : Val}
    (hget : getPromise m p = some P) (hst : P.state = PState.pending)
    (hv : isThenable v = false) :
    resolve m p v =
      triggerReactions
        (setPromise m p { state := .fulfilled, result := v, reactions := [] })
        PState.fulfilled v P.reactions := by
  unfold resolve settle
  rw [hget]
  simp [hst, hv, hget]

/-- Closed form of `reject` on a pending promise. -/
theorem reject_pending {m : Machine} {p : Nat} {P : PromiseRec} {r : Val}
    (hget : getPromise m p = some P) (hst : P.state = PState.pending) :
    reject m p r =
      triggerReactions
        (setPromise m p { state := .rejected, result := r, reactions := [] })
        PState.rejected r P.reactions := by
  unfold reject settle
  rw [hget]
  simp [hst, hget]

/-- Processing reactions does not touch the promise store. -/
theorem getPromise_triggerReactions (m : Machine) (st : PState) (res : Val)
    (rs : List Reaction) (p : Nat) :
    getPromise (triggerReactions m st res rs) p = getPromise m p := by
  rw [triggerReactions_eq]; rfl

/-- Enqueueing does not touch the promise store. -/
theorem getPromise_enqueue (m : Machine) (j : Job) (p : Nat) :
    getPromise (enqueue m j) p = getPromise m p := rfl

/-- Executing a Reaction Job of the fulfill variant: invoke the handler
on the argument, record its effects, deliver the outcome to the target. -/
theorem runJob_fulfill (m : Machine) (a : Val) (ctx : Nat) (h : Handler)
    (t : Target) :
    runJob m (Job.fulfillReactionJob a ctx h t) =
      settleOutcome { m with log := m.log ++ (runHandler h a).1 } t
        (runHandler h a).2 := rfl

/-- Executing a Reaction Job of the reject variant. -/
theorem runJob_reject (m : Machine) (a : Val) (ctx : Nat) (h : Handler)
    (t : Target) :
    runJob m (Job.rejectReactionJob a ctx h t) =
      settleOutcome { m with log := m.log ++ (runHandler h a).1 } t
        (runHandler h a).2 := rfl

/-- One step of the drain loop: pop the front job and execute it. -/
theorem drain_succ {m : Machine} {j : Job} {rest : List Job} (n : Nat)
    (hq : m.queue = j :: rest) :
    drain (n + 1) m = drain n (runJob { m with queue := rest } j) := by
  conv_lhs => rw [drain, hq]

/-- Resolving a freshly created promise (pending, no reactions) with a
non-thenable value just fulfills it in the store: queue and log are
untouched. -/
theorem resolve_fresh {m : Machine} {q : Nat} {v : Val}
    (hget : getPromise m q =
      some { state := .pending, result := .undef, reactions := [] })
    (hv : isThenable v = false) :
    resolve m q v =
      { m with promises :=
          m.promises.set q (PromiseRec.mk PState.fulfilled v []) } := by
  rw [resolve_pending_value hget rfl hv, triggerReactions_eq]
  simp [setPromise, reverseOnto]

/-! ## The claims -/

/-- C1: The Reaction Record layout (`PromiseReaction`) and the Reaction
Job layout (`PromiseReactionJobTask`) have identical slot count and
identical total size: each consists of exactly four tagged-size slots,
and `PromiseReaction::kSize` equals `PromiseReactionJobTask::kSize` (with
`Microtask` adding no fields beyond the `Struct` header), for every
header size and tagged-slot size. -/
theorem reaction_record_job_identical_shape (structHeaderSize taggedSize : Nat) :
    PromiseReaction.slotCount taggedSize = 4 ∧
    PromiseReactionJobTask.slotCount taggedSize = 4 ∧
    PromiseReaction.kSize structHeaderSize taggedSize =
      PromiseReactionJobTask.kSize structHeaderSize taggedSize :=
  ⟨rfl, rfl, rfl⟩

/-- C5: The morph step selects
`handler = state == fulfilled ? fulfill_handler : reject_handler`, tags
the node as the matching job variant, and reinterprets the four slots as
`(argument = result, context = ambient context, handler,
target = promise_or_capability)`; settlement processing enqueues exactly
these morphed nodes, with the promise's result as argument and the
ambient context, allocating no extra jobs. -/
theorem morph_selects_handler_and_slots (r : Reaction) (res : Val) (ctx : Nat) :
    morph PState.fulfilled res ctx r =
      Job.fulfillReactionJob res ctx r.fulfillHandler r.promiseOrCapability ∧
    morph PState.rejected res ctx r =
      Job.rejectReactionJob res ctx r.rejectHandler r.promiseOrCapability ∧
    ∀ (m : Machine) (st : PState) (v : Val) (rs : List Reaction),
      triggerReactions m st v rs =
        { m with queue :=
            m.queue ++ (reverseOnto rs []).map (morph st v m.ambientContext) } :=
  ⟨by simp [morph], by simp [morph], fun m st v rs => triggerReactions_eq m st v rs⟩

/-- C10: The `promise_or_capability` slot occupies the same offset — the
fourth tagged slot after the header — in both the `PromiseReaction` and
the `PromiseReactionJobTask` layout, and the morph step leaves the slot's
contents unchanged in place, for every state the promise settles to. -/
theorem promise_or_capability_slot_stable (structHeaderSize taggedSize : Nat)
    (st : PState) (res : Val) (ctx : Nat) (r : Reaction) :
    PromiseReaction.kPromiseOrCapabilityOffset structHeaderSize taggedSize =
      PromiseReactionJobTask.kPromiseOrCapabilityOffset structHeaderSize
        taggedSize ∧
    PromiseReaction.kPromiseOrCapabilityOffset structHeaderSize taggedSize =
      structHeaderSize + 3 * taggedSize ∧
    (morph st res ctx r).promiseOrCapability = r.promiseOrCapability := by
  refine ⟨rfl, ?_, ?_⟩
  · show structHeaderSize + taggedSize + taggedSize + taggedSize =
      structHeaderSize + 3 * taggedSize
    ring
  · unfold morph
    by_cases hst : st = PState.fulfilled <;>
      simp [hst, Job.promiseOrCapability]

/-- C2: Settlement is exactly-once: calling `resolve` or `reject` on an
already-settled promise leaves the whole machine unchanged — state and
result keep their values and no new job is produced; the redundant call
is a silent no-op. -/
theorem settled_resolve_reject_noop (m : Machine) (p : Nat) (P : PromiseRec)
    (v r : Val) (hget : getPromise m p = some P)
    (hst : P.state ≠ PState.pending) :
    resolve m p v = m ∧ reject m p r = m := by
  unfold resolve reject
  rw [hget]
  dsimp only
  simp [hst]

/-- Witness for C2 at a concrete settled promise. -/
theorem settled_resolve_reject_noop_witness :
    resolve
        { promises := [{ state := PState.fulfilled, result := Val.num 1,
                         reactions := [] }],
          queue := [], log := [], ambientContext := 0 } 0 (Val.num 2) =
      { promises := [{ state := PState.fulfilled, result := Val.num 1,
                       reactions := [] }],
        queue := [], log := [], ambientContext := 0 } ∧
    reject
        { promises := [{ state := PState.fulfilled, result := Val.num 1,
                         reactions := [] }],
          queue := [], log := [], ambientContext := 0 } 0 (Val.num 3) =
      { promises := [{ state := PState.fulfilled, result := Val.num 1,
                       reactions := [] }],
        queue := [], log := [], ambientContext := 0 } :=
  settled_resolve_reject_noop _ 0
    { state := PState.fulfilled, result := Val.num 1, reactions := [] }
    (Val.num 2) (Val.num 3) rfl (by decide)

/-- C6: Executing a dequeued Reaction Job of either variant invokes
`handler(argument)`; a returned value `v` is delivered by calling
`resolve(target, v)`, a raised user-level error `e` by calling
`reject(target, e)`, and when the target is the "none" sentinel the
outcome is discarded — in every case execution produces a machine state
(the error is consumed at the job boundary, never escaping the drain
loop). -/
theorem reaction_job_execution (m : Machine) (a : Val) (ctx : Nat)
    (h : Handler) (q : Nat) :
    (∀ lg v, runHandler h a = (lg, Except.ok v) →
      runJob m (Job.fulfillReactionJob a ctx h (Target.prom q)) =
        resolve { m with log := m.log ++ lg } q v ∧
      runJob m (Job.rejectReactionJob a ctx h (Target.prom q)) =
        resolve { m with log := m.log ++ lg } q v) ∧
    (∀ lg e, runHandler h a = (lg, Except.error e) →
      runJob m (Job.fulfillReactionJob a ctx h (Target.prom q)) =
        reject { m with log := m.log ++ lg } q e ∧
      runJob m (Job.rejectReactionJob a ctx h (Target.prom q)) =
        reject { m with log := m.log ++ lg } q e) ∧
    (runJob m (Job.fulfillReactionJob a ctx h Target.undef) =
        { m with log := m.log ++ (runHandler h a).1 } ∧
      runJob m (Job.rejectReactionJob a ctx h Target.undef) =
        { m with log := m.log ++ (runHandler h a).1 }) := by
  refine ⟨?_, ?_, ?_⟩
  · intro lg v hrun
    rw [runJob_fulfill, runJob_reject, hrun]
    exact ⟨rfl, rfl⟩
  · intro lg e hrun
    rw [runJob_fulfill, runJob_reject, hrun]
    exact ⟨rfl, rfl⟩
  · rw [runJob_fulfill, runJob_reject]
    cases hrun : (runHandler h a).2 <;> exact ⟨rfl, rfl⟩

/-- Witness for C6: a handler returning a value resolves the target, a
handler raising an error rejects it, and the "none" target discards the
outcome, at concrete inputs. -/
theorem reaction_job_execution_witness :
    (runJob { promises := [], queue := [], log := [], ambientContext := 0 }
        (Job.fulfillReactionJob (Val.num 1) 0 (Handler.const (Val.num 9))
          (Target.prom 0)) =
      resolve { promises := [], queue := [], log := [] ++ [],
                ambientContext := 0 } 0 (Val.num 9)) ∧
    (runJob { promises := [], queue := [], log := [], ambientContext := 0 }
        (Job.rejectReactionJob (Val.num 1) 0 (Handler.throwsErr (Val.num 8))
          (Target.prom 0)) =
      reject { promises := [], queue := [], log := [] ++ [],
               ambientContext := 0 } 0 (Val.num 8)) ∧
    (runJob { promises := [], queue := [], log := [], ambientContext := 0 }
        (Job.fulfillReactionJob (Val.num 1) 0 (Handler.throwsErr (Val.num 8))
          Target.undef) =
      { promises := [], queue := [],
        log := [] ++ (runHandler (Handler.throwsErr (Val.num 8)) (Val.num 1)).1,
        ambientContext := 0 }) :=
  ⟨((reaction_job_execution
      { promises := [], queue := [], log := [], ambientContext := 0 }
      (Val.num 1) 0 (Handler.const (Val.num 9)) 0).1 [] (Val.num 9) rfl).1,
   ((reaction_job_execution
      { promises := [], queue := [], log := [], ambientContext := 0 }
      (Val.num 1) 0 (Handler.throwsErr (Val.num 8)) 0).2.1 [] (Val.num 8)
      rfl).2,
   (reaction_job_execution
      { promises := [], queue := [], log := [], ambientContext := 0 }
      (Val.num 1) 0 (Handler.throwsErr (Val.num 8)) 0).2.2.1⟩

/-- C7: Resolving a pending promise with a value exposing a callable
`then` does not settle it synchronously: the call only enqueues a
Thenable-Resolution Job carrying `(context, P, X.then, X)` and returns
with P unchanged (still pending); and when the thenable's `then` raises
a user-level error with neither resolving nor rejecting function called,
P becomes rejected with that error after one drain step. -/
theorem resolve_thenable_defers (m : Machine) (p : Nat) (P : PromiseRec)
    (X err : Val) (hget : getPromise m p = some P)
    (hst : P.state = PState.pending) (hq : m.queue = [])
    (hX : isThenable X = true) :
    resolve m p X =
      enqueue m (Job.resolveThenableJob m.ambientContext p X X) ∧
    getPromise (resolve m p X) p = some P ∧
    getPromise (drain 1 (resolve m p (Val.thenableThrows err))) p =
      some { state := PState.rejected, result := err, reactions := [] } := by
  have hres : ∀ Y : Val, isThenable Y = true →
      resolve m p Y =
        enqueue m (Job.resolveThenableJob m.ambientContext p Y Y) := by
    intro Y hY
    unfold resolve
    rw [hget]
    dsimp only
    simp [hst, hY]
  refine ⟨hres X hX, ?_, ?_⟩
  · rw [hres X hX, getPromise_enqueue, hget]
  · rw [hres (Val.thenableThrows err) rfl]
    have hq' : (enqueue m
        (Job.resolveThenableJob m.ambientContext p (Val.thenableThrows err)
          (Val.thenableThrows err))).queue =
        Job.resolveThenableJob m.ambientContext p (Val.thenableThrows err)
          (Val.thenableThrows err) :: [] := by
      show m.queue ++ [_] = _
      rw [hq]
      rfl
    rw [drain_succ 0 hq']
    show getPromise
        (reject { enqueue m (Job.resolveThenableJob m.ambientContext p
          (Val.thenableThrows err) (Val.thenableThrows err)) with
            queue := [] } p err) p = _
    have hget' : getPromise
        { enqueue m (Job.resolveThenableJob m.ambientContext p
          (Val.thenableThrows err) (Val.thenableThrows err)) with
            queue := [] } p = some P := hget
    rw [reject_pending hget' hst, getPromise_triggerReactions,
      getPromise_setPromise_self hget']

/-- Witness for C7 at a concrete pending promise and thenable. -/
theorem resolve_thenable_defers_witness :
    resolve
        { promises := [{ state := PState.pending, result := Val.undef,
                         reactions := [] }],
          queue := [], log := [], ambientContext := 4 } 0
        (Val.thenableCallsResolve (Val.num 5)) =
      enqueue
        { promises := [{ state := PState.pending, result := Val.undef,
                         reactions := [] }],
          queue := [], log := [], ambientContext := 4 }
        (Job.resolveThenableJob 4 0 (Val.thenableCallsResolve (Val.num 5))
          (Val.thenableCallsResolve (Val.num 5))) ∧
    getPromise
        (resolve
          { promises := [{ state := PState.pending, result := Val.undef,
                           reactions := [] }],
            queue := [], log := [], ambientContext := 4 } 0
          (Val.thenableCallsResolve (Val.num 5))) 0 =
      some { state := PState.pending, result := Val.undef, reactions := [] } ∧
    getPromise
        (drain 1
          (resolve
            { promises := [{ state := PState.pending, result := Val.undef,
                             reactions := [] }],
              queue := [], log := [], ambientContext := 4 } 0
            (Val.thenableThrows (Val.num 7)))) 0 =
      some { state := PState.rejected, result := Val.num 7,
             reactions := [] } :=
  resolve_thenable_defers _ 0
    { state := PState.pending, result := Val.undef, reactions := [] }
    (Val.thenableCallsResolve (Val.num 5)) (Val.num 7) rfl rfl rfl rfl

/-- C3: Registering `then(P, f)` on an already-fulfilled promise never
invokes `f` within the same synchronous unit: the call leaves the effect
log untouched and only synthesizes and enqueues the fulfill-variant job
carrying `f`; `f` runs — its effects appear on the log — only once a
subsequent drain step executes that job. -/
theorem then_settled_never_synchronous (m : Machine) (p : Nat)
    (P : PromiseRec) (f : Handler) (hget : getPromise m p = some P)
    (hst : P.state = PState.fulfilled) (hq : m.queue = []) :
    (thenOp m p (some f) none).1.log = m.log ∧
    (thenOp m p (some f) none).1.queue =
      [Job.fulfillReactionJob P.result m.ambientContext f
        (Target.prom m.promises.length)] ∧
    (drain 1 (thenOp m p (some f) none).1).log =
      m.log ++ (runHandler f P.result).1 := by
  have hthen := thenOp_settled (some f) none hget (by rw [hst]; simp)
  rw [hst] at hthen
  have hmorph : morph PState.fulfilled P.result m.ambientContext
      { rejectHandler := (Option.none).getD Handler.rethrow,
        fulfillHandler := (some f).getD Handler.passThrough,
        promiseOrCapability := Target.prom m.promises.length } =
      Job.fulfillReactionJob P.result m.ambientContext f
        (Target.prom m.promises.length) := by
    simp [morph]
  rw [hmorph] at hthen
  have hfst : (thenOp m p (some f) none).1 =
      enqueue (createPromise m).1
        (Job.fulfillReactionJob P.result m.ambientContext f
          (Target.prom m.promises.length)) := by
    rw [hthen]
  refine ⟨by rw [hfst]; rfl, ?_, ?_⟩
  · rw [hfst]
    show m.queue ++ [_] = [_]
    rw [hq]
    rfl
  · have hq' : (thenOp m p (some f) none).1.queue =
        Job.fulfillReactionJob P.result m.ambientContext f
          (Target.prom m.promises.length) :: [] := by
      rw [hfst]
      show m.queue ++ [_] = _
      rw [hq]
      rfl
    rw [drain_succ 0 hq']
    show (runJob _ (Job.fulfillReactionJob P.result m.ambientContext f
      (Target.prom m.promises.length))).log = _
    rw [runJob_fulfill, settleOutcome_log]
    rw [hfst]
    rfl

/-- Witness for C3: on a concrete fulfilled promise, `then` leaves the
log empty and only enqueues the job; the handler's effect appears after
one drain step. -/
theorem then_settled_never_synchronous_witness :
    (thenOp
        { promises := [{ state := PState.fulfilled, result := Val.num 1,
                         reactions := [] }],
          queue := [], log := [], ambientContext := 3 } 0
        (some (Handler.logAndPass 5)) none).1.log = [] ∧
    (thenOp
        { promises := [{ state := PState.fulfilled, result := Val.num 1,
                         reactions := [] }],
          queue := [], log := [], ambientContext := 3 } 0
        (some (Handler.logAndPass 5)) none).1.queue =
      [Job.fulfillReactionJob (Val.num 1) 3 (Handler.logAndPass 5)
        (Target.prom 1)] ∧
    (drain 1
        (thenOp
          { promises := [{ state := PState.fulfilled, result := Val.num 1,
                           reactions := [] }],
            queue := [], log := [], ambientContext := 3 } 0
          (some (Handler.logAndPass 5)) none).1).log =
      [] ++ (runHandler (Handler.logAndPass 5) (Val.num 1)).1 :=
  then_settled_never_synchronous _ 0
    { state := PState.fulfilled, result := Val.num 1, reactions := [] }
    (Handler.logAndPass 5) rfl rfl rfl

/-- Common pipeline behind the chaining scenarios: register a single
reaction on a pending promise, fulfill the promise, drain one job, and
observe the target promise.  A returned non-thenable value fulfills the
target with it; a raised error rejects the target with it. -/
theorem drain_then_resolve_outcome {m : Machine} {p : Nat} {P : PromiseRec}
    (fo : Option Handler) {arg : Val}
    (hget : getPromise m p = some P) (hst : P.state = PState.pending)
    (hre : P.reactions = []) (hq : m.queue = [])
    (harg : isThenable arg = false) {lg : List Nat} {res : Except Val Val}
    (hrun : runHandler (fo.getD Handler.passThrough) arg = (lg, res)) :
    (∀ v, res = Except.ok v → isThenable v = false →
      getPromise (drain 1 (resolve (thenOp m p fo none).1 p arg))
        m.promises.length =
        some { state := .fulfilled, result := v, reactions := [] }) ∧
    (∀ e, res = Except.error e →
      getPromise (drain 1 (resolve (thenOp m p fo none).1 p arg))
        m.promises.length =
        some { state := .rejected, result := e, reactions := [] }) := by
  have hne : p ≠ m.promises.length := Nat.ne_of_lt (getPromise_lt hget)
  have hthen := thenOp_pending fo none hget hst
  rw [hre] at hthen
  simp only [Option.getD_none] at hthen
  have hm1 : (thenOp m p fo none).1 =
      setPromise (createPromise m).1 p
        { P with reactions :=
            [{ rejectHandler := Handler.rethrow,
               fulfillHandler := fo.getD Handler.passThrough,
               promiseOrCapability := Target.prom m.promises.length }] } := by
    rw [hthen]
  have hget1 : getPromise
      (setPromise (createPromise m).1 p
        { P with reactions :=
            [{ rejectHandler := Handler.rethrow,
               fulfillHandler := fo.getD Handler.passThrough,
               promiseOrCapability := Target.prom m.promises.length }] }) p =
      some { P with reactions :=
            [{ rejectHandler := Handler.rethrow,
               fulfillHandler := fo.getD Handler.passThrough,
               promiseOrCapability := Target.prom m.promises.length }] } :=
    getPromise_setPromise_self (getPromise_createPromise hget)
  have hres2 : resolve (thenOp m p fo none).1 p arg =
      { setPromise
          (setPromise (createPromise m).1 p
            { P with reactions :=
                [{ rejectHandler := Handler.rethrow,
                   fulfillHandler := fo.getD Handler.passThrough,
                   promiseOrCapability := Target.prom m.promises.length }] })
          p { state := .fulfilled, result := arg, reactions := [] } with
        queue := [Job.fulfillReactionJob arg m.ambientContext
          (fo.getD Handler.passThrough)
          (Target.prom m.promises.length)] } := by
    rw [hm1]
    rw [resolve_pending_value hget1 hst harg, triggerReactions_eq]
    show _ = _
    congr 1
    · show m.queue ++ _ = _
      rw [hq]
      simp [reverseOnto, morph]
      rfl
  have hdrain : drain 1 (resolve (thenOp m p fo none).1 p arg) =
      runJob
        { setPromise
            (setPromise (createPromise m).1 p
              { P with reactions :=
                  [{ rejectHandler := Handler.rethrow,
                     fulfillHandler := fo.getD Handler.passThrough,
                     promiseOrCapability := Target.prom m.promises.length }] })
            p { state := .fulfilled, result := arg, reactions := [] } with
          queue := [] }
        (Job.fulfillReactionJob arg m.ambientContext
          (fo.getD Handler.passThrough)
          (Target.prom m.promises.length)) := by
    rw [hres2, drain_succ 0 rfl]
    rfl
  rw [hdrain, runJob_fulfill, hrun]
  have hgetL : ∀ logv : List Nat,
      getPromise
        { setPromise
            (setPromise (createPromise m).1 p
              { P with reactions :=
                  [{ rejectHandler := Handler.rethrow,
                     fulfillHandler := fo.getD Handler.passThrough,
                     promiseOrCapability := Target.prom m.promises.length }] })
            p { state := .fulfilled, result := arg, reactions := [] } with
          queue := [], log := logv } m.promises.length =
      some { state := .pending, result := .undef, reactions := [] } := by
    intro logv
    show (((m.promises ++ [_]).set p _).set p _)[m.promises.length]? = _
    rw [List.getElem?_set_ne hne, List.getElem?_set_ne hne]
    exact List.getElem?_concat_length _ _
  constructor
  · intro v hv hthv
    subst hv
    show getPromise (resolve _ m.promises.length v) _ = _
    rw [resolve_pending_value (hgetL _) rfl hthv, getPromise_triggerReactions,
      getPromise_setPromise_self (hgetL _)]
  · intro e he
    subst he
    show getPromise (reject _ m.promises.length e) _ = _
    rw [reject_pending (hgetL _) rfl, getPromise_triggerReactions,
      getPromise_setPromise_self (hgetL _)]

/-- C8: Chaining semantics of `Q = then(P, f)` for a pending promise P
later fulfilled with `arg`: if `f` returns the value `v`, Q fulfills
with `v`; if `f` raises `err`, Q rejects with `err`; if `f` is omitted —
the pass-through sentinel is installed as the fulfill handler — P's
fulfillment value passes through to Q unchanged. -/
theorem chaining_semantics (m : Machine) (p : Nat) (P : PromiseRec)
    (arg v err : Val) (hget : getPromise m p = some P)
    (hst : P.state = PState.pending) (hre : P.reactions = [])
    (hq : m.queue = []) (harg : isThenable arg = false)
    (hv : isThenable v = false) :
    getPromise
        (drain 1 (resolve (thenOp m p (some (Handler.const v)) none).1 p arg))
        m.promises.length =
      some { state := .fulfilled, result := v, reactions := [] } ∧
    getPromise
        (drain 1
          (resolve (thenOp m p (some (Handler.throwsErr err)) none).1 p arg))
        m.promises.length =
      some { state := .rejected, result := err, reactions := [] } ∧
    getPromise (drain 1 (resolve (thenOp m p none none).1 p arg))
        m.promises.length =
      some { state := .fulfilled, result := arg, reactions := [] } :=
  ⟨(drain_then_resolve_outcome (some (Handler.const v)) hget hst hre hq harg
      rfl).1 v rfl hv,
   (drain_then_resolve_outcome (some (Handler.throwsErr err)) hget hst hre hq
      harg rfl).2 err rfl,
   (drain_then_resolve_outcome none hget hst hre hq harg rfl).1 arg rfl harg⟩

/-- Witness for C8 at a concrete pending promise fulfilled with 1. -/
theorem chaining_semantics_witness :
    getPromise
        (drain 1
          (resolve
            (thenOp
              { promises := [{ state := PState.pending, result := Val.undef,
                               reactions := [] }],
                queue := [], log := [], ambientContext := 0 } 0
              (some (Handler.const (Val.num 9))) none).1 0 (Val.num 1)))
        1 =
      some { state := .fulfilled, result := Val.num 9, reactions := [] } ∧
    getPromise
        (drain 1
          (resolve
            (thenOp
              { promises := [{ state := PState.pending, result := Val.undef,
                               reactions := [] }],
                queue := [], log := [], ambientContext := 0 } 0
              (some (Handler.throwsErr (Val.num 8))) none).1 0 (Val.num 1)))
        1 =
      some { state := .rejected, result := Val.num 8, reactions := [] } ∧
    getPromise
        (drain 1
          (resolve
            (thenOp
              { promises := [{ state := PState.pending, result := Val.undef,
                               reactions := [] }],
                queue := [], log := [], ambientContext := 0 } 0
              none none).1 0 (Val.num 1)))
        1 =
      some { state := .fulfilled, result := Val.num 1, reactions := [] } :=
  chaining_semantics _ 0
    { state := PState.pending, result := Val.undef, reactions := [] }
    (Val.num 1) (Val.num 9) (Val.num 8) rfl rfl rfl rfl rfl rfl

/-- C4: FIFO registration order.  Registering reaction A then reaction B
on a pending promise stores them reverse-chronologically by prepending;
the settlement step reverses the list back into registration order and
enqueues the two jobs in that order, so after settlement and one drain
A's logged effect appears before B's. -/
theorem fifo_registration_order (m : Machine) (p : Nat) (P : PromiseRec)
    (a b : Nat) (v : Val) (hget : getPromise m p = some P)
    (hst : P.state = PState.pending) (hre : P.reactions = [])
    (hq : m.queue = []) (hv : isThenable v = false) :
    (resolve
        ((thenOp ((thenOp m p (some (Handler.logAndPass a)) none).1) p
          (some (Handler.logAndPass b)) none).1) p v).queue =
      [Job.fulfillReactionJob v m.ambientContext (Handler.logAndPass a)
        (Target.prom m.promises.length),
       Job.fulfillReactionJob v m.ambientContext (Handler.logAndPass b)
        (Target.prom (m.promises.length + 1))] ∧
    (drain 2
        (resolve
          ((thenOp ((thenOp m p (some (Handler.logAndPass a)) none).1) p
            (some (Handler.logAndPass b)) none).1) p v)).log =
      m.log ++ [a, b] := by
  have hne : p ≠ m.promises.length := Nat.ne_of_lt (getPromise_lt hget)
  have hthen1 := thenOp_pending (some (Handler.logAndPass a)) none hget hst
  rw [hre] at hthen1
  simp only [Option.getD_none, Option.getD_some] at hthen1
  have hm1 : (thenOp m p (some (Handler.logAndPass a)) none).1 =
      setPromise (createPromise m).1 p
        { P with reactions :=
            [{ rejectHandler := Handler.rethrow,
               fulfillHandler := Handler.logAndPass a,
               promiseOrCapability := Target.prom m.promises.length }] } := by
    rw [hthen1]
  have hget2 : getPromise
      (setPromise (createPromise m).1 p
        { P with reactions :=
            [{ rejectHandler := Handler.rethrow,
               fulfillHandler := Handler.logAndPass a,
               promiseOrCapability := Target.prom m.promises.length }] }) p =
      some { P with reactions :=
          [{ rejectHandler := Handler.rethrow,
             fulfillHandler := Handler.logAndPass a,
             promiseOrCapability := Target.prom m.promises.length }] } :=
    getPromise_setPromise_self (getPromise_createPromise hget)
  have hlen1 : (setPromise (createPromise m).1 p
      { P with reactions :=
          [{ rejectHandler := Handler.rethrow,
             fulfillHandler := Handler.logAndPass a,
             promiseOrCapability :=
               Target.prom m.promises.length }] }).promises.length =
      m.promises.length + 1 := by
    show ((m.promises ++ [_]).set p _).length = _
    simp
  have hthen2 := thenOp_pending (some (Handler.logAndPass b)) none hget2 hst
  rw [hlen1] at hthen2
  simp only [Option.getD_none, Option.getD_some] at hthen2
  have hm2 : (thenOp ((thenOp m p (some (Handler.logAndPass a)) none).1) p
      (some (Handler.logAndPass b)) none).1 =
      setPromise
        (createPromise
          (setPromise (createPromise m).1 p
            { P with reactions :=
                [{ rejectHandler := Handler.rethrow,
                   fulfillHandler := Handler.logAndPass a,
                   promiseOrCapability :=
                     Target.prom m.promises.length }] })).1 p
        { P with reactions :=
            [{ rejectHandler := Handler.rethrow,
               fulfillHandler := Handler.logAndPass b,
               promiseOrCapability := Target.prom (m.promises.length + 1) },
             { rejectHandler := Handler.rethrow,
               fulfillHandler := Handler.logAndPass a,
               promiseOrCapability := Target.prom m.promises.length }] } := by
    rw [hm1, hthen2]
  have hget3 : getPromise
      (setPromise
        (createPromise
          (setPromise (createPromise m).1 p
            { P with reactions :=
                [{ rejectHandler := Handler.rethrow,
                   fulfillHandler := Handler.logAndPass a,
                   promiseOrCapability :=
                     Target.prom m.promises.length }] })).1 p
        { P with reactions :=
            [{ rejectHandler := Handler.rethrow,
               fulfillHandler := Handler.logAndPass b,
               promiseOrCapability := Target.prom (m.promises.length + 1) },
             { rejectHandler := Handler.rethrow,
               fulfillHandler := Handler.logAndPass a,
               promiseOrCapability := Target.prom m.promises.length }] }) p =
      some { P with reactions :=
          [{ rejectHandler := Handler.rethrow,
             fulfillHandler := Handler.logAndPass b,
             promiseOrCapability := Target.prom (m.promises.length + 1) },
           { rejectHandler := Handler.rethrow,
             fulfillHandler := Handler.logAndPass a,
             promiseOrCapability := Target.prom m.promises.length }] } :=
    getPromise_setPromise_self (getPromise_createPromise hget2)
  have hres : resolve
      ((thenOp ((thenOp m p (some (Handler.logAndPass a)) none).1) p
        (some (Handler.logAndPass b)) none).1) p v =
      { setPromise
          (setPromise
            (createPromise
              (setPromise (createPromise m).1 p
                { P with reactions :=
                    [{ rejectHandler := Handler.rethrow,
                       fulfillHandler := Handler.logAndPass a,
                       promiseOrCapability :=
                         Target.prom m.promises.length }] })).1 p
            { P with reactions :=
                [{ rejectHandler := Handler.rethrow,
                   fulfillHandler := Handler.logAndPass b,
                   promiseOrCapability :=
                     Target.prom (m.promises.length + 1) },
                 { rejectHandler := Handler.rethrow,
                   fulfillHandler := Handler.logAndPass a,
                   promiseOrCapability := Target.prom m.promises.length }] })
          p { state := PState.fulfilled, result := v, reactions := [] } with
        queue :=
          [Job.fulfillReactionJob v m.ambientContext (Handler.logAndPass a)
            (Target.prom m.promises.length),
           Job.fulfillReactionJob v m.ambientContext (Handler.logAndPass b)
            (Target.prom (m.promises.length + 1))] } := by
    rw [hm2, resolve_pending_value hget3 hst hv, triggerReactions_eq]
    congr 1
    show m.queue ++ _ = _
    rw [hq]
    simp [reverseOnto, morph]
    rfl
  refine ⟨by rw [hres], ?_⟩
  rw [hres, drain_succ 1 rfl]
  have hfactA : (((((m.promises ++
      [PromiseRec.mk PState.pending Val.undef []]).set p
        { P with reactions :=
            [{ rejectHandler := Handler.rethrow,
               fulfillHandler := Handler.logAndPass a,
               promiseOrCapability :=
                 Target.prom m.promises.length }] }) ++
      [PromiseRec.mk PState.pending Val.undef []]).set p
        { P with reactions :=
            [{ rejectHandler := Handler.rethrow,
               fulfillHandler := Handler.logAndPass b,
               promiseOrCapability := Target.prom (m.promises.length + 1) },
             { rejectHandler := Handler.rethrow,
               fulfillHandler := Handler.logAndPass a,
               promiseOrCapability :=
                 Target.prom m.promises.length }] }).set p
        (PromiseRec.mk PState.fulfilled v []))[m.promises.length]? =
      some (PromiseRec.mk PState.pending Val.undef []) := by
    rw [List.getElem?_set_ne hne, List.getElem?_set_ne hne,
      List.getElem?_append_left (by simp), List.getElem?_set_ne hne]
    exact List.getElem?_concat_length _ _
  show (drain 1
      (resolve
        ({ setPromise
            (setPromise
              (createPromise
                (setPromise (createPromise m).1 p
                  { P with reactions :=
                      [{ rejectHandler := Handler.rethrow,
                         fulfillHandler := Handler.logAndPass a,
                         promiseOrCapability :=
                           Target.prom m.promises.length }] })).1 p
              { P with reactions :=
                  [{ rejectHandler := Handler.rethrow,
                     fulfillHandler := Handler.logAndPass b,
                     promiseOrCapability :=
                       Target.prom (m.promises.length + 1) },
                   { rejectHandler := Handler.rethrow,
                     fulfillHandler := Handler.logAndPass a,
                     promiseOrCapability :=
                       Target.prom m.promises.length }] })
            p { state := PState.fulfilled, result := v, reactions := [] }
          with
          queue := [Job.fulfillReactionJob v m.ambientContext
            (Handler.logAndPass b) (Target.prom (m.promises.length + 1))],
          log := m.log ++ [a] } : Machine) m.promises.length v)).log =
    m.log ++ [a, b]
  have hgetE : getPromise
      { setPromise
          (setPromise
            (createPromise
              (setPromise (createPromise m).1 p
                { P with reactions :=
                    [{ rejectHandler := Handler.rethrow,
                       fulfillHandler := Handler.logAndPass a,
                       promiseOrCapability :=
                         Target.prom m.promises.length }] })).1 p
            { P with reactions :=
                [{ rejectHandler := Handler.rethrow,
                   fulfillHandler := Handler.logAndPass b,
                   promiseOrCapability :=
                     Target.prom (m.promises.length + 1) },
                 { rejectHandler := Handler.rethrow,
                   fulfillHandler := Handler.logAndPass a,
                   promiseOrCapability := Target.prom m.promises.length }] })
          p { state := PState.fulfilled, result := v, reactions := [] }
        with
        queue := [Job.fulfillReactionJob v m.ambientContext
          (Handler.logAndPass b) (Target.prom (m.promises.length + 1))],
        log := m.log ++ [a] } m.promises.length =
      some { state := .pending, result := .undef, reactions := [] } := hfactA
  rw [resolve_fresh hgetE hv, drain_succ 0 rfl]
  show (resolve _ (m.promises.length + 1) v).log = _
  rw [resolve_log]
  show (m.log ++ [a]) ++ [b] = _
  simp

/-- Witness for C4: handlers logging 10 and 20 registered in that order
on a concrete pending promise run in registration order after settlement
and one drain. -/
theorem fifo_registration_order_witness :
    (resolve
        ((thenOp
          ((thenOp
            { promises := [{ state := PState.pending, result := Val.undef,
                             reactions := [] }],
              queue := [], log := [], ambientContext := 0 } 0
            (some (Handler.logAndPass 10)) none).1) 0
          (some (Handler.logAndPass 20)) none).1) 0 (Val.num 3)).queue =
      [Job.fulfillReactionJob (Val.num 3) 0 (Handler.logAndPass 10)
        (Target.prom 1),
       Job.fulfillReactionJob (Val.num 3) 0 (Handler.logAndPass 20)
        (Target.prom 2)] ∧
    (drain 2
        (resolve
          ((thenOp
            ((thenOp
              { promises := [{ state := PState.pending, result := Val.undef,
                               reactions := [] }],
                queue := [], log := [], ambientContext := 0 } 0
              (some (Handler.logAndPass 10)) none).1) 0
            (some (Handler.logAndPass 20)) none).1) 0 (Val.num 3))).log =
      [] ++ [10, 20] :=
  fifo_registration_order _ 0
    { state := PState.pending, result := Val.undef, reactions := [] }
    10 20 (Val.num 3) rfl rfl rfl rfl rfl

/-- C9: The pending reaction list reachable through the `next` field is
a finite singly-linked chain of `PromiseReaction` nodes terminated by
the Smi 0 integer sentinel; registration prepend and the settlement
pointer reversal both preserve this termination, and every `next` slot
in a well-formed chain holds either a reference to a `PromiseReaction`
node or Smi 0 — never null, undefined or anything else. -/
theorem reaction_list_smi_terminated (h : Heap) (head : Obj) (l : List Nat)
    (hc : Chain h head l) (hnd : l.Nodup) (rh fh : Handler) (t : Target) :
    Chain (prependNode h head rh fh t).1 (prependNode h head rh fh t).2
      (h.length :: l) ∧
    Chain (revChain h head l.length).1 (revChain h head l.length).2
      l.reverse ∧
    (∀ a ∈ l, ∃ c, h[a]? = some c ∧
      (c.next = Obj.smi 0 ∨ ∃ b, c.next = Obj.ref b)) := by
  refine ⟨prependNode_chain hc rh fh t, ?_, hc.next_shape⟩
  have hrev := revChainAux_chain hc Chain.nil (by simpa using hnd)
    (le_refl l.length)
  simpa [revChain] using hrev

/-- Witness for C9 on the concrete two-node chain. -/
theorem reaction_list_smi_terminated_witness :
    Chain
      (prependNode twoNodeHeap (Obj.ref 1) Handler.rethrow Handler.passThrough
        Target.undef).1
      (prependNode twoNodeHeap (Obj.ref 1) Handler.rethrow Handler.passThrough
        Target.undef).2 [2, 1, 0] ∧
    Chain (revChain twoNodeHeap (Obj.ref 1) 2).1
      (revChain twoNodeHeap (Obj.ref 1) 2).2 [0, 1] ∧
    (∀ a ∈ ([1, 0] : List Nat), ∃ c, twoNodeHeap[a]? = some c ∧
      (c.next = Obj.smi 0 ∨ ∃ b, c.next = Obj.ref b)) :=
  reaction_list_smi_terminated twoNodeHeap (Obj.ref 1) [1, 0]
    (Chain.cons rfl (Chain.cons rfl Chain.nil)) (by decide)
    Handler.rethrow Handler.passThrough Target.undef

end V8Promise
